import Mathlib

/-!
Verification development for the `rppal_softpwm` command-line tool
(`src/lib.rs` and `src/bin/rppal_softpwm.rs`).

The embedding is shallow:
* the floating-point angle-to-duty-cycle formula is embedded over `ℚ`
  (exact arithmetic with the same constants and operations);
* `parse_angle_time` and the `u64` string parsing it relies on are embedded
  over `List Char` and `Nat`, with the 64-bit overflow check made explicit;
* the effectful `run` method is embedded as a function from the parse
  outcome and a GPIO fault environment to the trace of observable effects
  (log lines, GPIO calls, sleeps) paired with the returned result.
-/

namespace RppalSoftpwm

/-! ### Angle to duty cycle (src/lib.rs lines 59-61 and 120-122)

The Rust code computes over `f64`; the embedding uses exact rational
arithmetic with the same constants and the same expression. -/

def DUTY_CYCLE_0_DEGREES : ℚ := 5 / 2

def DUTY_CYCLE_180_DEGREES : ℚ := 25 / 2

def DUTY_CYCLE_RANGE : ℚ := DUTY_CYCLE_180_DEGREES - DUTY_CYCLE_0_DEGREES

/-- Embedding of the nested function `degrees_to_duty_cycle` in
`RppalSoftpwmTool::run` (src/lib.rs line 120-122):
`(degrees * (DUTY_CYCLE_RANGE / 180.0) + DUTY_CYCLE_0_DEGREES) / 100.0`. -/
def degrees_to_duty_cycle (degrees : ℚ) : ℚ :=
  (degrees * (DUTY_CYCLE_RANGE / 180) + DUTY_CYCLE_0_DEGREES) / 100

/-! ### Parsing of `angle:time` tokens (src/lib.rs lines 83-96)

Strings are embedded as `List Char`.  Rust's `str::parse::<u64>` accepts an
optional leading `+`, then one or more ASCII decimal digits, and fails on
overflow of the 64-bit range; the per-digit `checked_mul`/`checked_add` of
the standard library is embedded as a per-digit bound check. -/

def U64_LIMIT : Nat := 2 ^ 64

/-- Value of an ASCII decimal digit, `none` for any other character
(mirrors `char::to_digit(10)`). -/
def digitVal (c : Char) : Option Nat :=
  if c ≥ '0' ∧ c ≤ '9' then some (c.toNat - '0'.toNat) else none

/-- Digit-accumulation loop of `u64::from_str` with the 64-bit overflow
check performed at every step, as `checked_mul`/`checked_add` do. -/
def parseDigitsChecked (acc : Nat) : List Char → Option Nat
  | [] => some acc
  | c :: rest =>
    match digitVal c with
    | none => none
    | some d =>
      if acc * 10 + d < U64_LIMIT then parseDigitsChecked (acc * 10 + d) rest
      else none

/-- The same digit-accumulation loop without any bound: the unbounded
mathematical value denoted by a digit string. -/
def parseDigitsVal (acc : Nat) : List Char → Option Nat
  | [] => some acc
  | c :: rest =>
    match digitVal c with
    | none => none
    | some d => parseDigitsVal (acc * 10 + d) rest

/-- Strip the optional leading `+` sign accepted by `u64::from_str`. -/
def stripSign (s : List Char) : List Char :=
  match s with
  | [] => []
  | c :: rest => if c = '+' then rest else c :: rest

/-- Embedding of `str::parse::<u64>`: optional `+`, at least one ASCII
digit, value within the 64-bit range. -/
def parseU64 (s : List Char) : Option Nat :=
  match stripSign s with
  | [] => none
  | c :: rest => parseDigitsChecked 0 (c :: rest)

/-- Modelled from the spec's words, for comparison with `parseU64`: a
string that denotes a non-negative integer (optional `+` sign, at least
one decimal digit), with NO upper bound, and the integer it denotes. -/
def specNonNegInt (s : List Char) : Option Nat :=
  match stripSign s with
  | [] => none
  | c :: rest => parseDigitsVal 0 (c :: rest)

/-- Embedding of Rust's `str::split(':')` collected to a `Vec`: the list
of (possibly empty) chunks between occurrences of the separator. -/
def splitChar (sep : Char) : List Char → List (List Char)
  | [] => [[]]
  | c :: rest =>
    if c = sep then [] :: splitChar sep rest
    else
      match splitChar sep rest with
      | [] => [[c]]
      | p :: ps => (c :: p) :: ps

/-- Embedding of `parse_angle_time` (src/lib.rs lines 83-96). -/
def parse_angle_time (s : List Char) : Except String (Nat × Nat) :=
  match splitChar ':' s with
  | [p0, p1] =>
    match parseU64 p0 with
    | none => .error "Invalid angle"
    | some angle =>
      if angle > 180 then .error "Angle must be between 0 and 180"
      else
        match parseU64 p1 with
        | none => .error "Invalid time"
        | some time => .ok (angle, time)
  | _ => .error "Invalid format"

/-! ### The `BcmPin` value enum (src/lib.rs lines 27-57)

A `#[repr(u8)]` enum with variants `Pin1 = 1` through `Pin27`; clap's
`ValueEnum` derive makes exactly these variants the parseable values of
the `--pin` flag, and `run` uses the variant cast to `u8`. -/

inductive BcmPin where
  | pin1 | pin2 | pin3 | pin4 | pin5 | pin6 | pin7 | pin8 | pin9
  | pin10 | pin11 | pin12 | pin13 | pin14 | pin15 | pin16 | pin17 | pin18
  | pin19 | pin20 | pin21 | pin22 | pin23 | pin24 | pin25 | pin26 | pin27
deriving DecidableEq, Fintype

/-- The `u8` discriminant of a `BcmPin` variant (`Pin1 = 1`, the rest
consecutive), i.e. the value of `cli.pin as u8`. -/
def bcmPinValue : BcmPin → Nat
  | .pin1 => 1 | .pin2 => 2 | .pin3 => 3 | .pin4 => 4 | .pin5 => 5
  | .pin6 => 6 | .pin7 => 7 | .pin8 => 8 | .pin9 => 9 | .pin10 => 10
  | .pin11 => 11 | .pin12 => 12 | .pin13 => 13 | .pin14 => 14 | .pin15 => 15
  | .pin16 => 16 | .pin17 => 17 | .pin18 => 18 | .pin19 => 19 | .pin20 => 20
  | .pin21 => 21 | .pin22 => 22 | .pin23 => 23 | .pin24 => 24 | .pin25 => 25
  | .pin26 => 26 | .pin27 => 27

/-! ### The effectful `run` method (src/lib.rs lines 104-135)

`run` is embedded as a pure function from the outcome of
`Cli::try_parse_from` and a fault environment for the GPIO library calls
to the trace of observable effects paired with the returned `Result`. -/

/-- Embedding of the parsed `Cli` struct (src/lib.rs lines 63-81). -/
structure Cli where
  no_color : Bool
  pin : Nat
  frequency : Nat
  angles : List (Nat × Nat)

/-- Fault environment for the fallible GPIO library calls made by `run`:
whether `Gpio::new`, `Gpio::get`, the i-th `set_pwm_frequency` call and
`clear_pwm` succeed. -/
structure GpioEnv where
  newOk : Bool
  getOk : Bool
  setPwmOk : Nat → Bool
  clearOk : Bool

/-- Observable effects of `run`: log output lines and GPIO/timing calls,
in program order. -/
inductive Event where
  | logMsg : String → Event
  | logProgress : Nat → Nat → Event
  | logDone : Event
  | gpioNew : Event
  | getPin : Nat → Event
  | setResetOnDrop : Bool → Event
  | setPwmFrequency : ℚ → ℚ → Event
  | sleep : Nat → Event
  | clearPwm : Event
deriving DecidableEq

/-- The error value propagated out of `run` via `?`, tagged by which
library call failed (the i-th `set_pwm_frequency` call carries i). -/
inductive RunError where
  | gpioNew : RunError
  | getPin : RunError
  | setPwm : Nat → RunError
  | clearPwm : RunError
deriving DecidableEq

/-- Effects of one successfully completed iteration of the `for` loop in
`run` for the pair `(angle, time)`: progress log line, the
`set_pwm_frequency` call, then the sleep (src/lib.rs lines 124-129). -/
def stepEvents (freq : Nat) (p : Nat × Nat) : List Event :=
  [.logProgress p.1 p.2,
   .setPwmFrequency (freq : ℚ) (degrees_to_duty_cycle (p.1 : ℚ)),
   .sleep p.2]

/-- The `for` loop of `run` followed by the final `Done` log line and
`clear_pwm` call, with `i` counting the `set_pwm_frequency` calls made so
far (src/lib.rs lines 124-132). -/
def runLoop (env : GpioEnv) (freq : Nat) : Nat → List (Nat × Nat) →
    List Event × Except RunError Unit
  | _, [] =>
    ([.logDone, .clearPwm],
     if env.clearOk then .ok () else .error .clearPwm)
  | i, (angle, time) :: rest =>
    let evs : List Event :=
      [.logProgress angle time,
       .setPwmFrequency (freq : ℚ) (degrees_to_duty_cycle (angle : ℚ))]
    if env.setPwmOk i then
      let r := runLoop env freq (i + 1) rest
      (evs ++ .sleep time :: r.1, r.2)
    else
      (evs, .error (.setPwm i))

/-- Embedding of `RppalSoftpwmTool::run` (src/lib.rs lines 105-135), as a
function of the outcome of `Cli::try_parse_from` (clap library code) and
the GPIO fault environment.  On a parse error (which includes a `--help`
invocation, displayed as an error by clap) the code logs the message and
returns `Ok(())`; otherwise it acquires the pin, disables reset-on-drop,
runs the loop and clears the PWM output. -/
def run (parse : Except String Cli) (env : GpioEnv) :
    List Event × Except RunError Unit :=
  match parse with
  | .error msg => ([.logMsg msg], .ok ())
  | .ok cli =>
    if env.newOk then
      if env.getOk then
        let r := runLoop env cli.frequency 0 cli.angles
        (.gpioNew :: .getPin cli.pin :: .setResetOnDrop false :: r.1, r.2)
      else ([.gpioNew, .getPin cli.pin], .error .getPin)
    else ([.gpioNew], .error .gpioNew)

/-- Embedding of `main` in src/bin/rppal_softpwm.rs (lines 25-32): on an
`Err` from `run` it logs the error and exits with code 1, otherwise the
process exits with code 0.  Returns (logged error, exit code). -/
def mainOutcome (r : Except RunError Unit) : Option RunError × Nat :=
  match r with
  | .error e => (some e, 1)
  | .ok _ => (none, 0)

/-- Whether an event is a GPIO operation (pin acquisition, reset-on-drop
configuration, PWM programming or clearing), as opposed to a log line or
a sleep. -/
def isGpioOp : Event → Bool
  | .gpioNew => true
  | .getPin _ => true
  | .setResetOnDrop _ => true
  | .setPwmFrequency _ _ => true
  | .clearPwm => true
  | _ => false

/-- Modelled from the spec: `Cli::try_parse_from` is clap-generated
library code not under src/; per the spec a `--help` invocation
short-circuits parsing, so `try_parse_from` returns an error value whose
message is the rendered help text rather than a `Cli`. -/
def helpText : String := "Usage: rppal_softpwm [OPTIONS] --pin <PIN>"

/-- Modelled from the spec: the outcome of `Cli::try_parse_from` on a
`--help` invocation (see `helpText`). -/
def helpInvocationParse : Except String Cli := .error helpText

/-! ### Helper lemmas about the digit parser -/

lemma parseDigitsVal_le {l : List Char} {acc v : Nat}
    (h : parseDigitsVal acc l = some v) : acc ≤ v := by
  induction l generalizing acc with
  | nil => simp [parseDigitsVal] at h; omega
  | cons c rest ih =>
    simp only [parseDigitsVal] at h
    cases hd : digitVal c with
    | none => rw [hd] at h; exact absurd h (by simp)
    | some d =>
      rw [hd] at h
      have := ih h
      omega

lemma parseDigitsChecked_eq {l : List Char} {acc : Nat} (hacc : acc < U64_LIMIT) :
    parseDigitsChecked acc l =
      (parseDigitsVal acc l).bind
        (fun v => if v < U64_LIMIT then some v else none) := by
  induction l generalizing acc with
  | nil => simp [parseDigitsChecked, parseDigitsVal, hacc]
  | cons c rest ih =>
    simp only [parseDigitsChecked, parseDigitsVal]
    cases hd : digitVal c with
    | none => simp
    | some d =>
      simp only []
      by_cases hv : acc * 10 + d < U64_LIMIT
      · rw [if_pos hv]
        exact ih hv
      · rw [if_neg hv]
        cases hval : parseDigitsVal (acc * 10 + d) rest with
        | none => simp [hval]
        | some w =>
          have : acc * 10 + d ≤ w := parseDigitsVal_le hval
          simp only [hval, Option.some_bind]
          rw [if_neg (by omega)]

lemma parseU64_iff {s : List Char} {v : Nat} :
    parseU64 s = some v ↔ specNonNegInt s = some v ∧ v < U64_LIMIT := by
  unfold parseU64 specNonNegInt
  cases hs : stripSign s with
  | nil => simp
  | cons c rest =>
    show parseDigitsChecked 0 (c :: rest) = some v ↔
      parseDigitsVal 0 (c :: rest) = some v ∧ v < U64_LIMIT
    rw [parseDigitsChecked_eq (by norm_num [U64_LIMIT])]
    cases hval : parseDigitsVal 0 (c :: rest) with
    | none => simp [hval]
    | some w =>
      by_cases hw : w < U64_LIMIT
      · simp [hval, hw]
        intro h; omega
      · simp [hval, hw]
        intro h; omega

lemma digitVal_colon : digitVal ':' = none := by decide

lemma parseDigitsVal_no_colon {l : List Char} {acc v : Nat}
    (h : parseDigitsVal acc l = some v) : ':' ∉ l := by
  induction l generalizing acc with
  | nil => simp
  | cons c rest ih =>
    simp only [parseDigitsVal] at h
    cases hd : digitVal c with
    | none => rw [hd] at h; exact absurd h (by simp)
    | some d =>
      rw [hd] at h
      intro hmem
      rcases List.mem_cons.mp hmem with hc | hc
      · rw [← hc] at hd; rw [digitVal_colon] at hd; exact absurd hd (by simp)
      · exact ih h hc

lemma specNonNegInt_no_colon {s : List Char} {v : Nat}
    (h : specNonNegInt s = some v) : ':' ∉ s := by
  unfold specNonNegInt at h
  cases s with
  | nil => simp
  | cons c rest =>
    simp only [stripSign] at h
    by_cases hc : c = '+'
    · rw [if_pos hc] at h
      cases rest with
      | nil => exact absurd h (by simp)
      | cons b bs =>
        have hrest := parseDigitsVal_no_colon h
        intro hmem
        rcases List.mem_cons.mp hmem with h1 | h1
        · rw [hc] at h1; exact absurd h1 (by decide)
        · exact hrest h1
    · rw [if_neg hc] at h
      exact parseDigitsVal_no_colon h

/-! ### Helper lemmas about `splitChar` -/

lemma splitChar_of_not_mem {sep : Char} {l : List Char} (h : sep ∉ l) :
    splitChar sep l = [l] := by
  induction l with
  | nil => rfl
  | cons c rest ih =>
    have hc : ¬(c = sep) := fun he => h (by rw [he]; exact List.mem_cons_self _ _)
    have hrest : sep ∉ rest := fun hm => h (List.mem_cons_of_mem _ hm)
    simp only [splitChar, if_neg hc, ih hrest]

lemma splitChar_append {sep : Char} {l1 l2 : List Char} (h1 : sep ∉ l1) :
    splitChar sep (l1 ++ sep :: l2) = l1 :: splitChar sep l2 := by
  induction l1 with
  | nil => simp [splitChar]
  | cons c rest ih =>
    have hc : ¬(c = sep) := fun he => h1 (by rw [he]; exact List.mem_cons_self _ _)
    have hrest : sep ∉ rest := fun hm => h1 (List.mem_cons_of_mem _ hm)
    rw [List.cons_append, splitChar]
    rw [if_neg hc, ih hrest]

lemma splitChar_pair {sep : Char} {l1 l2 : List Char}
    (h1 : sep ∉ l1) (h2 : sep ∉ l2) :
    splitChar sep (l1 ++ sep :: l2) = [l1, l2] := by
  rw [splitChar_append h1, splitChar_of_not_mem h2]

/-! ### Helper lemmas about `runLoop` -/

lemma runLoop_all_ok {env : GpioEnv} {freq : Nat}
    (hset : ∀ i, env.setPwmOk i = true) :
    ∀ (l : List (Nat × Nat)) (k : Nat),
      runLoop env freq k l =
        (l.flatMap (stepEvents freq) ++ [.logDone, .clearPwm],
         if env.clearOk then .ok () else .error .clearPwm) := by
  intro l
  induction l with
  | nil => intro k; simp [runLoop]
  | cons p rest ih =>
    intro k
    obtain ⟨angle, time⟩ := p
    rw [runLoop, if_pos (hset k), ih (k + 1)]
    simp [stepEvents]

lemma runLoop_fail {env : GpioEnv} {freq : Nat} {a t : Nat}
    {post : List (Nat × Nat)} :
    ∀ (pre : List (Nat × Nat)) (k : Nat),
      (∀ j, j < pre.length → env.setPwmOk (k + j) = true) →
      env.setPwmOk (k + pre.length) = false →
      runLoop env freq k (pre ++ (a, t) :: post) =
        (pre.flatMap (stepEvents freq) ++
           [.logProgress a t,
            .setPwmFrequency (freq : ℚ) (degrees_to_duty_cycle (a : ℚ))],
         .error (.setPwm (k + pre.length))) := by
  intro pre
  induction pre with
  | nil =>
    intro k _ hfail
    simp only [List.length_nil, Nat.add_zero] at hfail
    rw [List.nil_append, runLoop, if_neg (by rw [hfail]; simp)]
    simp
  | cons p pre2 ih =>
    intro k hok hfail
    obtain ⟨b, s⟩ := p
    have h0 : env.setPwmOk k = true := by
      have := hok 0 (by simp)
      simpa using this
    rw [List.cons_append, runLoop, if_pos h0]
    have hok2 : ∀ j, j < pre2.length → env.setPwmOk (k + 1 + j) = true := by
      intro j hj
      have := hok (j + 1) (by simp; omega)
      rw [← this]
      congr 1
      omega
    have hfail2 : env.setPwmOk (k + 1 + pre2.length) = false := by
      rw [← hfail]
      congr 1
      simp
      omega
    have harr : k + 1 + pre2.length = k + (pre2.length + 1) := by omega
    rw [ih (k + 1) hok2 hfail2, harr]
    simp [stepEvents, List.flatMap_cons, List.append_assoc]

/-- Characterization of the accepted `angle:time` tokens: `parse_angle_time`
succeeds exactly on tokens of exactly two `:`-separated parts whose parts
denote non-negative integers, with the angle at most 180 and the time
below the 64-bit limit. -/
lemma parse_angle_time_ok_iff (s : List Char) (a t : Nat) :
    parse_angle_time s = .ok (a, t) ↔
      ∃ p0 p1, splitChar ':' s = [p0, p1] ∧ specNonNegInt p0 = some a ∧
        a ≤ 180 ∧ specNonNegInt p1 = some t ∧ t < U64_LIMIT := by
  constructor
  · intro h
    unfold parse_angle_time at h
    split at h
    · rename_i p0 p1 hsplit
      refine ⟨p0, p1, hsplit, ?_⟩
      cases hp0 : parseU64 p0 with
      | none => rw [hp0] at h; simp at h
      | some angle =>
        rw [hp0] at h
        replace h : (if angle > 180
            then (Except.error "Angle must be between 0 and 180" :
              Except String (Nat × Nat))
            else
              match parseU64 p1 with
              | none => Except.error "Invalid time"
              | some time => Except.ok (angle, time)) = Except.ok (a, t) := h
        by_cases hgt : angle > 180
        · rw [if_pos hgt] at h; simp at h
        · rw [if_neg hgt] at h
          cases hp1 : parseU64 p1 with
          | none => rw [hp1] at h; simp at h
          | some time =>
            rw [hp1] at h
            replace h : (Except.ok (angle, time) :
              Except String (Nat × Nat)) = Except.ok (a, t) := h
            simp only [Except.ok.injEq, Prod.mk.injEq] at h
            obtain ⟨ha, ht⟩ := h
            subst ha; subst ht
            have h0 := parseU64_iff.mp hp0
            have h1 := parseU64_iff.mp hp1
            exact ⟨h0.1, by omega, h1.1, h1.2⟩
    · simp at h
  · rintro ⟨p0, p1, hsplit, hp0, ha, hp1, ht⟩
    have hu0 : parseU64 p0 = some a :=
      parseU64_iff.mpr ⟨hp0, by norm_num [U64_LIMIT]; omega⟩
    have hu1 : parseU64 p1 = some t := parseU64_iff.mpr ⟨hp1, ht⟩
    unfold parse_angle_time
    rw [hsplit]
    show (match parseU64 p0 with
      | none => Except.error "Invalid angle"
      | some angle =>
        if angle > 180 then Except.error "Angle must be between 0 and 180"
        else
          match parseU64 p1 with
          | none => Except.error "Invalid time"
          | some time => Except.ok (angle, time)) = Except.ok (a, t)
    rw [hu0, hu1]
    show (if a > 180 then Except.error "Angle must be between 0 and 180"
      else Except.ok (a, t)) = Except.ok (a, t)
    rw [if_neg (show ¬a > 180 by omega)]

/-! ### Concrete inputs used by the witness theorems -/

def envAllOk : GpioEnv := ⟨true, true, fun _ => true, true⟩

def envFailSecond : GpioEnv := ⟨true, true, fun i => decide (i = 0), true⟩

def cliW : Cli := ⟨false, 4, 50, [(0, 100), (180, 200)]⟩

def cliSeq : Cli := ⟨false, 17, 50, [(0, 100), (90, 50), (180, 10)]⟩

/-! ### The claims -/

/-- C1: `degrees_to_duty_cycle` is linear interpolation between the
minimum duty cycle `DUTY_CYCLE_0_DEGREES = 2.5` percent at 0 degrees and
the maximum `DUTY_CYCLE_180_DEGREES = 12.5` percent at 180 degrees,
scaled from percentage to fraction; angle 0 yields the minimum duty-cycle
fraction and angle 180 yields the maximum. -/
theorem degrees_to_duty_cycle_linear :
    degrees_to_duty_cycle 0 = DUTY_CYCLE_0_DEGREES / 100 ∧
    degrees_to_duty_cycle 180 = DUTY_CYCLE_180_DEGREES / 100 ∧
    ∀ a : ℚ, degrees_to_duty_cycle a =
      ((1 - a / 180) * DUTY_CYCLE_0_DEGREES +
        (a / 180) * DUTY_CYCLE_180_DEGREES) / 100 := by
  refine ⟨?_, ?_, ?_⟩
  · norm_num [degrees_to_duty_cycle, DUTY_CYCLE_0_DEGREES,
      DUTY_CYCLE_RANGE, DUTY_CYCLE_180_DEGREES]
  · norm_num [degrees_to_duty_cycle, DUTY_CYCLE_0_DEGREES,
      DUTY_CYCLE_RANGE, DUTY_CYCLE_180_DEGREES]
  · intro a
    unfold degrees_to_duty_cycle DUTY_CYCLE_RANGE DUTY_CYCLE_0_DEGREES
      DUTY_CYCLE_180_DEGREES
    ring

/-- C2: the angle-to-duty-cycle conversion is monotonically non-decreasing
on the interval of angles from 0 to 180. -/
theorem degrees_to_duty_cycle_monotone (a1 a2 : ℚ)
    (h0 : 0 ≤ a1) (h12 : a1 ≤ a2) (h180 : a2 ≤ 180) :
    degrees_to_duty_cycle a1 ≤ degrees_to_duty_cycle a2 := by
  unfold degrees_to_duty_cycle DUTY_CYCLE_RANGE DUTY_CYCLE_0_DEGREES
    DUTY_CYCLE_180_DEGREES
  have h : (25 / 2 - 5 / 2 : ℚ) / 180 = 1 / 18 := by norm_num
  rw [h]
  linarith

/-- Witness for C2 at the concrete angles 0 and 90. -/
theorem degrees_to_duty_cycle_monotone_witness :
    (0 : ℚ) ≤ 0 ∧ (0 : ℚ) ≤ 90 ∧ (90 : ℚ) ≤ 180 ∧
    degrees_to_duty_cycle 0 ≤ degrees_to_duty_cycle 90 :=
  ⟨le_refl 0, by norm_num, by norm_num,
   degrees_to_duty_cycle_monotone 0 90 (le_refl 0) (by norm_num) (by norm_num)⟩

/-- C3: on a successfully parsed input and fault-free GPIO calls, `run`
performs for each angle/time pair in the given order a progress message,
a `set_pwm_frequency` call with the requested frequency and the duty
cycle computed from the angle, then a sleep of the requested time, and
after the last pair logs `Done` and clears the pin's PWM output,
returning `Ok`. -/
theorem run_executes_sequence_in_order (cli : Cli) (env : GpioEnv)
    (hnew : env.newOk = true) (hget : env.getOk = true)
    (hset : ∀ i, env.setPwmOk i = true) (hclear : env.clearOk = true) :
    run (.ok cli) env =
      (.gpioNew :: .getPin cli.pin :: .setResetOnDrop false ::
         (cli.angles.flatMap (stepEvents cli.frequency) ++
           [.logDone, .clearPwm]),
       .ok ()) := by
  simp [run, hnew, hget, runLoop_all_ok hset, hclear]

/-- Witness for C3 on a two-pair sequence with all GPIO calls succeeding. -/
theorem run_executes_sequence_in_order_witness :
    (∀ i, envAllOk.setPwmOk i = true) ∧
    run (.ok cliW) envAllOk =
      (Event.gpioNew :: Event.getPin cliW.pin :: Event.setResetOnDrop false ::
         (cliW.angles.flatMap (stepEvents cliW.frequency) ++
           [Event.logDone, Event.clearPwm]),
       .ok ()) :=
  ⟨fun _ => rfl,
   run_executes_sequence_in_order cliW envAllOk rfl rfl (fun _ => rfl) rfl⟩

/-- C4: if the `set_pwm_frequency` call of step i fails, `run` stops after
that failed call: the trace contains exactly the already-completed steps
followed by the log line and failed call of step i, with no later step,
no sleep for step i and no `clear_pwm`; the error is returned and `main`
logs it and exits with code 1, while the completed steps stay in the
trace (no rollback). -/
theorem run_aborts_on_set_pwm_failure (cli : Cli) (env : GpioEnv)
    (pre post : List (Nat × Nat)) (a t : Nat)
    (hangles : cli.angles = pre ++ (a, t) :: post)
    (hnew : env.newOk = true) (hget : env.getOk = true)
    (hok : ∀ j, j < pre.length → env.setPwmOk j = true)
    (hfail : env.setPwmOk pre.length = false) :
    run (.ok cli) env =
      (.gpioNew :: .getPin cli.pin :: .setResetOnDrop false ::
         (pre.flatMap (stepEvents cli.frequency) ++
           [.logProgress a t,
            .setPwmFrequency (cli.frequency : ℚ)
              (degrees_to_duty_cycle (a : ℚ))]),
       .error (.setPwm pre.length)) ∧
    Event.clearPwm ∉ (run (.ok cli) env).1 ∧
    mainOutcome (run (.ok cli) env).2 = (some (.setPwm pre.length), 1) := by
  have hloop := @runLoop_fail env cli.frequency a t post pre 0
    (by intro j hj; rw [Nat.zero_add]; exact hok j hj)
    (by rw [Nat.zero_add]; exact hfail)
  rw [Nat.zero_add] at hloop
  have hrun : run (.ok cli) env =
      (.gpioNew :: .getPin cli.pin :: .setResetOnDrop false ::
         (pre.flatMap (stepEvents cli.frequency) ++
           [.logProgress a t,
            .setPwmFrequency (cli.frequency : ℚ)
              (degrees_to_duty_cycle (a : ℚ))]),
       .error (.setPwm pre.length)) := by
    simp [run, hnew, hget, hangles, hloop]
  refine ⟨hrun, ?_, ?_⟩
  · rw [hrun]
    simp [stepEvents, List.mem_flatMap]
  · rw [hrun]
    rfl

/-- Witness for C4: a three-pair sequence whose second `set_pwm_frequency`
call fails. -/
theorem run_aborts_on_set_pwm_failure_witness :
    cliSeq.angles = [(0, 100)] ++ (90, 50) :: [(180, 10)] ∧
    (run (.ok cliSeq) envFailSecond =
      (Event.gpioNew :: Event.getPin cliSeq.pin ::
         Event.setResetOnDrop false ::
         ([((0 : Nat), (100 : Nat))].flatMap (stepEvents cliSeq.frequency) ++
           [Event.logProgress 90 50,
            Event.setPwmFrequency (cliSeq.frequency : ℚ)
              (degrees_to_duty_cycle ((90 : Nat) : ℚ))]),
       .error (.setPwm (List.length [((0 : Nat), (100 : Nat))]))) ∧
     Event.clearPwm ∉ (run (.ok cliSeq) envFailSecond).1 ∧
     mainOutcome (run (.ok cliSeq) envFailSecond).2 =
       (some (.setPwm (List.length [((0 : Nat), (100 : Nat))])), 1)) :=
  ⟨rfl, run_aborts_on_set_pwm_failure cliSeq envFailSecond
    [(0, 100)] [(180, 10)] 90 50 rfl rfl rfl (by decide) rfl⟩

/-- C5: on any argument-parse error, `run` logs the parse error message on
the log output channel and returns `Ok`, so `main` logs no error and the
process exits with code 0. -/
theorem run_parse_error_returns_ok (msg : String) (env : GpioEnv) :
    run (.error msg) env = ([.logMsg msg], .ok ()) ∧
    mainOutcome (run (.error msg) env).2 = (none, 0) :=
  ⟨rfl, rfl⟩

/-- C6 (amended): `parse_angle_time` accepts a token exactly when it has
exactly two `:`-separated parts that denote non-negative integers, the
angle is at most 180 AND the time is below 2^64; all other tokens,
including those whose time component denotes an integer of at least 2^64,
are rejected with an error message. -/
theorem parse_angle_time_ok_characterization (s : List Char) (a t : Nat) :
    parse_angle_time s = .ok (a, t) ↔
      ∃ p0 p1, splitChar ':' s = [p0, p1] ∧ specNonNegInt p0 = some a ∧
        a ≤ 180 ∧ specNonNegInt p1 = some t ∧ t < U64_LIMIT :=
  parse_angle_time_ok_iff s a t

/-- Counterexample to C6 as stated: the token `0:18446744073709551616`
has exactly two `:`-separated parts, both denoting non-negative integers,
and its angle 0 is at most 180, yet it is rejected (the time equals 2^64,
which overflows the 64-bit parse). -/
theorem parse_angle_time_claim_counterexample :
    splitChar ':' ("0:18446744073709551616".toList) =
      ["0".toList, "18446744073709551616".toList] ∧
    specNonNegInt ("0".toList) = some 0 ∧ (0 : Nat) ≤ 180 ∧
    specNonNegInt ("18446744073709551616".toList) =
      some 18446744073709551616 ∧
    parse_angle_time ("0:18446744073709551616".toList) =
      .error "Invalid time" :=
  ⟨rfl, rfl, by norm_num, rfl, rfl⟩

/-- Witness for C6 on the concrete accepted token `30:500`. -/
theorem parse_angle_time_ok_characterization_witness :
    parse_angle_time ("30:500".toList) = .ok (30, 500) :=
  (parse_angle_time_ok_characterization ("30:500".toList) 30 500).mpr
    ⟨"30".toList, "500".toList, rfl, rfl, by norm_num, rfl,
     by norm_num [U64_LIMIT]⟩

/-- C7: a `--help` invocation makes `run` log the help text and return
`Ok`, with no GPIO operation in the trace (no pin acquisition, no PWM
programming, no PWM clearing) and exit code 0. -/
theorem run_help_no_gpio (env : GpioEnv) :
    run helpInvocationParse env = ([.logMsg helpText], .ok ()) ∧
    (run helpInvocationParse env).1.filter isGpioOp = [] ∧
    mainOutcome (run helpInvocationParse env).2 = (none, 0) :=
  ⟨rfl, rfl, rfl⟩

/-- C8 (amended): the hold duration of a pair is a non-negative integer
below 2^64: every token `a:t` whose parts denote non-negative integers
with a at most 180 and t below 2^64 parses successfully to the pair
(a, t). -/
theorem token_with_bounded_time_parses (sa st : List Char) (a t : Nat)
    (ha : specNonNegInt sa = some a) (hbound : a ≤ 180)
    (ht : specNonNegInt st = some t) (htbound : t < U64_LIMIT) :
    parse_angle_time (sa ++ ':' :: st) = .ok (a, t) := by
  have hsa : ':' ∉ sa := specNonNegInt_no_colon ha
  have hst : ':' ∉ st := specNonNegInt_no_colon ht
  exact (parse_angle_time_ok_iff _ a t).mpr
    ⟨sa, st, splitChar_pair hsa hst, ha, hbound, ht, htbound⟩

/-- Counterexample to C8 as stated: the hold duration is not unbounded;
the token `90:99999999999999999999` has a valid angle and a time
component denoting the non-negative integer 10^20 - 1, yet it is
rejected because the time exceeds the 64-bit range. -/
theorem time_unbounded_counterexample :
    specNonNegInt ("99999999999999999999".toList) =
      some 99999999999999999999 ∧
    parse_angle_time ("90:99999999999999999999".toList) =
      .error "Invalid time" :=
  ⟨rfl, rfl⟩

/-- Witness for C8 on the concrete token `45:1000`. -/
theorem token_with_bounded_time_parses_witness :
    parse_angle_time ("45".toList ++ ':' :: "1000".toList) = .ok (45, 1000) :=
  token_with_bounded_time_parses ("45".toList) ("1000".toList) 45 1000
    rfl (by norm_num) rfl (by norm_num [U64_LIMIT])

/-- C9: the `BcmPin` value enum makes exactly the pin numbers 1 through 27
representable on the command line: every variant's value lies in that
range, every number in the range is some variant's value, no variant has
value 0, and a rejected pin argument (a parse error) leads to a trace
with no GPIO operation at all. -/
theorem bcm_pin_values_exactly_one_to_twentyseven :
    (∀ p : BcmPin, 1 ≤ bcmPinValue p ∧ bcmPinValue p ≤ 27) ∧
    (∀ n : Nat, 1 ≤ n → n ≤ 27 → ∃ p : BcmPin, bcmPinValue p = n) ∧
    (∀ p : BcmPin, bcmPinValue p ≠ 0) ∧
    (∀ (msg : String) (env : GpioEnv),
      (run (.error msg) env).1.filter isGpioOp = []) := by
  refine ⟨?_, ?_, ?_, ?_⟩
  · intro p; cases p <;> simp [bcmPinValue]
  · intro n h1 h2; interval_cases n <;> decide
  · intro p; cases p <;> simp [bcmPinValue]
  · intro msg env; rfl

/-- Witness for C9 at pin value 27 and a concrete rejected argument. -/
theorem bcm_pin_values_witness :
    (1 ≤ bcmPinValue BcmPin.pin7 ∧ bcmPinValue BcmPin.pin7 ≤ 27) ∧
    (∃ p : BcmPin, bcmPinValue p = 27) ∧
    bcmPinValue BcmPin.pin7 ≠ 0 ∧
    (run (.error "invalid value for pin") envAllOk).1.filter isGpioOp = [] :=
  ⟨bcm_pin_values_exactly_one_to_twentyseven.1 BcmPin.pin7,
   bcm_pin_values_exactly_one_to_twentyseven.2.1 27 (by norm_num) (by norm_num),
   bcm_pin_values_exactly_one_to_twentyseven.2.2.1 BcmPin.pin7,
   bcm_pin_values_exactly_one_to_twentyseven.2.2.2 "invalid value for pin"
     envAllOk⟩

/-- C10: immediately after pin acquisition, `run` calls
`set_reset_on_drop(false)`: whenever `Gpio::new` and `get` succeed, the
trace begins with the acquisition events followed directly by
`setResetOnDrop false`, on every exit path (the later events and the
result are unconstrained here). -/
theorem run_disables_reset_on_drop (cli : Cli) (env : GpioEnv)
    (hnew : env.newOk = true) (hget : env.getOk = true) :
    (run (.ok cli) env).1.take 3 =
      [.gpioNew, .getPin cli.pin, .setResetOnDrop false] := by
  simp [run, hnew, hget]

/-- Witness for C10 on a concrete parsed invocation. -/
theorem run_disables_reset_on_drop_witness :
    envAllOk.newOk = true ∧ envAllOk.getOk = true ∧
    (run (.ok cliSeq) envAllOk).1.take 3 =
      [Event.gpioNew, Event.getPin cliSeq.pin, Event.setResetOnDrop false] :=
  ⟨rfl, rfl, run_disables_reset_on_drop cliSeq envAllOk rfl rfl⟩

end RppalSoftpwm
